import Mathlib

/-!
Verification of the HeliFX real-time control core against its specification.

The definitions below are a shallow embedding of the C sources:
* the PWM capture monitor (`gpio.c`: `process_pwm_event`,
  `pwm_monitor_create_with_name`, `pwm_monitor_start`,
  `pwm_monitor_get_reading`, `pwm_monitor_get_average`),
* the smoke generator (`smoke_generator.c`),
* the servo motion profiler and the gun-fire rate selection, whose C
  implementations are not part of the staged sources and are therefore
  modelled from the specification text (marked as such in their doc
  comments).

Machine integers are modelled as `Int`/`Nat`; where the source narrows — the
`(int)` cast of the 64-bit pulse-width difference in `process_pwm_event` —
the model applies the two's-complement wrap into 32 bits explicitly
(`int32_cast`).  Elsewhere no arithmetic comes near the width of the C types
involved (stored pulse widths are bounded by 3000, sums of at most 128 of
them by 384000).  The C `/` on nonnegative operands is `Int.tdiv`.
Timestamps are explicit parameters wherever the C code calls
`clock_gettime` or reads an event timestamp.
-/

namespace HeliFX

/-- A `struct timespec` value (seconds, nanoseconds). -/
structure Timespec where
  tv_sec : Int
  tv_nsec : Int
  deriving Repr, DecidableEq

/-- `PWMReading` from `gpio.h`: the pin and the pulse duration in µs. -/
structure PWMReading where
  pin : Int
  duration_us : Int
  deriving Repr, DecidableEq

/-- One slot of the averaging ring buffer (`monitor->samples[i]`): a pulse
duration and the `CLOCK_MONOTONIC` timestamp at which it was captured.  The C
code zero-initialises the array and treats an all-zero timestamp as an empty
slot. -/
structure PWMSample where
  duration_us : Int
  ts : Timespec
  deriving Repr, DecidableEq

/-- `PWM_AVG_MAX_SAMPLES` from `gpio.c`. -/
def PWM_AVG_MAX_SAMPLES : Nat := 128

/-- The mutable state of `struct PWMMonitor` (gpio.c).  The libgpiod line
request and the user callback are external resources with no bearing on the
claims and are left out; everything else is carried verbatim. -/
structure PWMMonitor where
  pin : Int
  active : Bool
  has_new_reading : Bool
  first_signal_received : Bool
  current_reading : PWMReading
  rise_time : Timespec
  waiting_for_fall : Bool
  avg_window_ms : Int
  samples : List PWMSample
  sample_head : Nat
  deriving Repr, DecidableEq

/-- `timespec_to_us` from gpio.c: `ts->tv_sec * 1000000 + ts->tv_nsec / 1000`. -/
def timespec_to_us (ts : Timespec) : Int :=
  ts.tv_sec * 1000000 + Int.tdiv ts.tv_nsec 1000

/-- Conversion of a libgpiod event timestamp (`uint64_t` nanoseconds) to the
`struct timespec` the monitor stores: `ns / 1000000000` and `ns % 1000000000`. -/
def ns_to_timespec (ns : Nat) : Timespec :=
  ⟨(ns / 1000000000 : Nat), (ns % 1000000000 : Nat)⟩

/-- A GPIO edge event as delivered by libgpiod: its type and its timestamp in
nanoseconds. -/
inductive EdgeEvent where
  | rising (timestamp_ns : Nat)
  | falling (timestamp_ns : Nat)
  deriving Repr, DecidableEq

/-- The C `(int)` narrowing cast applied to the 64-bit difference
`fall_us - rise_us` (gpio.c line 299): two's-complement wrap into
[-2^31, 2^31). -/
def int32_cast (x : Int) : Int :=
  (x + 2147483648) % 4294967296 - 2147483648

/-- The in-band test of `process_pwm_event`:
`pulse_width >= 500 && pulse_width <= 3000`. -/
def pulse_in_band (pulse_width : Int) : Prop :=
  500 ≤ pulse_width ∧ pulse_width ≤ 3000

instance (pw : Int) : Decidable (pulse_in_band pw) := by
  unfold pulse_in_band; infer_instance

/-- Lines 319-322 of `process_pwm_event`: append an accepted reading to the
averaging ring buffer.  `now` is the value `clock_gettime(CLOCK_MONOTONIC, _)`
writes into the slot. -/
def pwm_push_sample (now : Timespec) (pulse_width : Int) (m : PWMMonitor) : PWMMonitor :=
  { m with
    samples := m.samples.set m.sample_head ⟨pulse_width, now⟩,
    sample_head := (m.sample_head + 1) % PWM_AVG_MAX_SAMPLES }

/-- `process_pwm_event` from gpio.c.  A rising edge stores the rise timestamp
and arms `waiting_for_fall`; a falling edge (when armed) computes
`int pulse_width = (int)(fall_us - rise_us)` — the 64-bit difference narrowed
to 32 bits — and only an in-band value (500..3000 µs) is surfaced: it becomes
the current reading, sets `has_new_reading` and is pushed into the ring
buffer.  The user callback is an external side effect and is not modelled. -/
def process_pwm_event (now : Timespec) (m : PWMMonitor) (e : EdgeEvent) : PWMMonitor :=
  match e with
  | .rising ns =>
      { m with rise_time := ns_to_timespec ns, waiting_for_fall := true }
  | .falling ns =>
      if m.waiting_for_fall then
        let fall_time := ns_to_timespec ns
        let pulse_width := int32_cast (timespec_to_us fall_time - timespec_to_us m.rise_time)
        if pulse_in_band pulse_width then
          let m' := { m with
            first_signal_received := true,
            current_reading := ⟨m.pin, pulse_width⟩,
            has_new_reading := true,
            waiting_for_fall := false }
          pwm_push_sample now pulse_width m'
        else
          { m with waiting_for_fall := false }
      else m

/-- Folding a sequence of timestamped edge events through the monitor, in
arrival order (the shared polling thread drains events one by one). -/
def process_pwm_events (m : PWMMonitor) (evs : List (Timespec × EdgeEvent)) : PWMMonitor :=
  evs.foldl (fun m p => process_pwm_event p.1 m p.2) m

/-- The zeroed monitor `pwm_monitor_create_with_name` builds for a pin
(`calloc` plus the explicit field initialisation): inactive, no reading,
averaging window 200 ms, empty 128-slot sample buffer. -/
def pwm_monitor_fresh (pin : Int) : PWMMonitor :=
  { pin := pin
    active := false
    has_new_reading := false
    first_signal_received := false
    current_reading := ⟨0, 0⟩
    rise_time := ⟨0, 0⟩
    waiting_for_fall := false
    avg_window_ms := 200
    samples := List.replicate PWM_AVG_MAX_SAMPLES ⟨0, ⟨0, 0⟩⟩
    sample_head := 0 }

/-- `pwm_monitor_get_reading` from gpio.c: non-blocking; if `has_new_reading`
is set, return the current reading and clear the flag, else return nothing and
leave the monitor as it is.  The pair is (returned reading, monitor after). -/
def pwm_monitor_get_reading (m : PWMMonitor) : Option PWMReading × PWMMonitor :=
  if m.has_new_reading then
    (some m.current_reading, { m with has_new_reading := false })
  else
    (none, m)

/-- An empty ring-buffer slot: the all-zero timestamp (`gpio.c` skips exactly
those in `pwm_monitor_get_average`). -/
def sample_empty (s : PWMSample) : Prop :=
  s.ts.tv_sec = 0 ∧ s.ts.tv_nsec = 0

instance (s : PWMSample) : Decidable (sample_empty s) := by
  unfold sample_empty; infer_instance

/-- Every non-empty ring-buffer slot holds an in-band duration, and whenever
`has_new_reading` is set the current reading is in band.  This is the
invariant behind the spec's `500 ≤ duration_us ≤ 3000` guarantee. -/
def pwm_monitor_in_band_inv (m : PWMMonitor) : Prop :=
  (m.has_new_reading = true → pulse_in_band m.current_reading.duration_us) ∧
  (∀ s ∈ m.samples, ¬ sample_empty s → pulse_in_band s.duration_us)

theorem pwm_push_sample_in_band_inv (now : Timespec) (pw : Int) (m : PWMMonitor)
    (hpw : pulse_in_band pw) (hinv : pwm_monitor_in_band_inv m) :
    pwm_monitor_in_band_inv (pwm_push_sample now pw m) := by
  obtain ⟨hcur, hsamp⟩ := hinv
  refine ⟨hcur, ?_⟩
  intro s hs hne
  rcases List.mem_or_eq_of_mem_set hs with h | rfl
  · exact hsamp s h hne
  · exact hpw

theorem process_pwm_event_in_band_inv (now : Timespec) (m : PWMMonitor) (e : EdgeEvent)
    (hinv : pwm_monitor_in_band_inv m) :
    pwm_monitor_in_band_inv (process_pwm_event now m e) := by
  obtain ⟨hcur, hsamp⟩ := hinv
  cases e with
  | rising ns => exact ⟨hcur, hsamp⟩
  | falling ns =>
      simp only [process_pwm_event]
      split
      · split
        · next hband =>
            exact pwm_push_sample_in_band_inv _ _ _ hband ⟨fun _ => hband, hsamp⟩
        · exact ⟨hcur, hsamp⟩
      · exact ⟨hcur, hsamp⟩

theorem process_pwm_events_in_band_inv (m : PWMMonitor) (evs : List (Timespec × EdgeEvent))
    (hinv : pwm_monitor_in_band_inv m) :
    pwm_monitor_in_band_inv (process_pwm_events m evs) := by
  induction evs generalizing m with
  | nil => exact hinv
  | cons p ps ih =>
      exact ih _ (process_pwm_event_in_band_inv p.1 m p.2 hinv)

theorem pwm_monitor_fresh_in_band_inv (pin : Int) :
    pwm_monitor_in_band_inv (pwm_monitor_fresh pin) := by
  constructor
  · intro h; simp [pwm_monitor_fresh] at h
  · intro s hs hne
    exfalso
    apply hne
    have := List.eq_of_mem_replicate hs
    subst this
    exact ⟨rfl, rfl⟩

/-- The true (unwrapped) pulse width of a rising edge at `t1` ns paired with
a falling edge at `t2` ns, in µs. -/
def edge_pair_true_width (t1 t2 : Nat) : Int :=
  timespec_to_us (ns_to_timespec t2) - timespec_to_us (ns_to_timespec t1)

/-- The pulse width `process_pwm_event` actually computes for that pair: the
true width narrowed to 32 bits by the C `(int)` cast. -/
def edge_pair_width (t1 t2 : Nat) : Int :=
  int32_cast (edge_pair_true_width t1 t2)

/-- C1 (amended): a rising/falling pair surfaces a `PulseReading` iff the
*32-bit-narrowed* width `(int)(fall_us - rise_us)` lies in [500, 3000] µs
(first two conjuncts: from a fresh monitor, the pair sets `has_new_reading`
iff the narrowed width is in band, and when it does, the surfaced duration is
that narrowed width — so a true width that wraps into the band, e.g.
2³² + 2000 µs, is surfaced; see the counterexample); and every reading a
monitor driven by any event sequence ever surfaces — the current reading when
`has_new_reading` is set as well as every stored sample — carries a stored
`duration_us` in band (last conjunct). -/
theorem pwm_pulse_filtering (pin : Int) (t1 t2 : Nat) (now1 now2 : Timespec)
    (evs : List (Timespec × EdgeEvent)) :
    ((process_pwm_events (pwm_monitor_fresh pin)
        [(now1, .rising t1), (now2, .falling t2)]).has_new_reading = true ↔
      pulse_in_band (edge_pair_width t1 t2)) ∧
    (pulse_in_band (edge_pair_width t1 t2) →
      (process_pwm_events (pwm_monitor_fresh pin)
        [(now1, .rising t1), (now2, .falling t2)]).current_reading =
        ⟨pin, edge_pair_width t1 t2⟩) ∧
    pwm_monitor_in_band_inv (process_pwm_events (pwm_monitor_fresh pin) evs) := by
  refine ⟨?_, ?_, process_pwm_events_in_band_inv _ _ (pwm_monitor_fresh_in_band_inv pin)⟩
  · simp only [process_pwm_events, List.foldl, process_pwm_event, pwm_monitor_fresh,
      edge_pair_width, edge_pair_true_width]
    by_cases hband : pulse_in_band (int32_cast (timespec_to_us (ns_to_timespec t2) -
        timespec_to_us (ns_to_timespec t1)))
    · simp [hband, pwm_push_sample]
    · simp [hband]
  · intro hband
    simp only [process_pwm_events, List.foldl, process_pwm_event, pwm_monitor_fresh,
      edge_pair_width, edge_pair_true_width] at *
    simp [hband, pwm_push_sample]

/-- C1 counterexample: a pulse of true width 2³² + 2000 µs (about 71.6
minutes, far outside [500, 3000]) is *not* discarded: the C `(int)` narrowing
of `fall_us - rise_us` wraps it to 2000 µs, the band check passes, and the
monitor surfaces a 2000 µs reading. -/
theorem pwm_pulse_filtering_wrap :
    edge_pair_true_width 0 4294969296000 = 4294969296 ∧
    ¬ pulse_in_band (edge_pair_true_width 0 4294969296000) ∧
    (process_pwm_events (pwm_monitor_fresh 17)
      [(⟨5000, 0⟩, .rising 0), (⟨5000, 0⟩, .falling 4294969296000)]).has_new_reading =
      true ∧
    (process_pwm_events (pwm_monitor_fresh 17)
      [(⟨5000, 0⟩, .rising 0),
        (⟨5000, 0⟩, .falling 4294969296000)]).current_reading.duration_us = 2000 := by
  refine ⟨by decide, by decide, by decide, by decide⟩

/-- The age of a ring-buffer slot relative to `now`, in nanoseconds
(`age_ns` in `pwm_monitor_get_average`). -/
def sample_age_ns (now : Timespec) (s : PWMSample) : Int :=
  (now.tv_sec - s.ts.tv_sec) * 1000000000 + (now.tv_nsec - s.ts.tv_nsec)

/-- `pwm_monitor_get_average` from gpio.c: scan all 128 slots, skip empty
ones, sum the durations whose age lies in `[0, avg_window_ms * 10^6]` ns, and
return `sum / count` (C integer division; the operands are nonnegative for any
buffer the monitor actually builds) — `none` when no slot qualifies.  `now` is
the `clock_gettime(CLOCK_MONOTONIC, _)` value taken at the top of the call. -/
def pwm_monitor_get_average (now : Timespec) (m : PWMMonitor) : Option Int :=
  let window_ns : Int := m.avg_window_ms * 1000000
  let acc := m.samples.foldl
    (fun (acc : Int × Int) s =>
      if sample_empty s then acc
      else if 0 ≤ sample_age_ns now s ∧ sample_age_ns now s ≤ window_ns then
        (acc.1 + s.duration_us, acc.2 + 1)
      else acc)
    (0, 0)
  if acc.2 = 0 then none else some (Int.tdiv acc.1 acc.2)

/-- A slot that `pwm_monitor_get_average` counts: non-empty, with age in
`[0, window_ns]`. -/
def sample_in_window (now : Timespec) (window_ns : Int) (s : PWMSample) : Prop :=
  ¬ sample_empty s ∧ 0 ≤ sample_age_ns now s ∧ sample_age_ns now s ≤ window_ns

instance (now : Timespec) (w : Int) (s : PWMSample) :
    Decidable (sample_in_window now w s) := by
  unfold sample_in_window; infer_instance

/-- The durations of the buffer slots that lie in the averaging window. -/
def in_window_samples (now : Timespec) (m : PWMMonitor) : List Int :=
  (m.samples.filter
    (fun s => decide (sample_in_window now (m.avg_window_ms * 1000000) s))).map
    (fun s => s.duration_us)

theorem pwm_average_foldl_eq (now : Timespec) (w : Int) (l : List PWMSample)
    (a c : Int) :
    l.foldl
      (fun (acc : Int × Int) s =>
        if sample_empty s then acc
        else if 0 ≤ sample_age_ns now s ∧ sample_age_ns now s ≤ w then
          (acc.1 + s.duration_us, acc.2 + 1)
        else acc)
      (a, c) =
    (a + ((l.filter (fun s => decide (sample_in_window now w s))).map
        (fun s => s.duration_us)).sum,
     c + ((l.filter (fun s => decide (sample_in_window now w s))).map
        (fun s => s.duration_us)).length) := by
  induction l generalizing a c with
  | nil => simp
  | cons s ss ih =>
      simp only [List.foldl, List.filter_cons, decide_eq_true_eq]
      by_cases hemp : sample_empty s
      · have hnw : ¬ sample_in_window now w s := fun h => h.1 hemp
        rw [if_pos hemp, if_neg hnw]
        exact ih a c
      · by_cases hage : 0 ≤ sample_age_ns now s ∧ sample_age_ns now s ≤ w
        · have hw : sample_in_window now w s := ⟨hemp, hage⟩
          rw [if_neg hemp, if_pos hage, if_pos hw, ih]
          simp only [List.map_cons, List.sum_cons, List.length_cons, Prod.mk.injEq]
          constructor <;> push_cast <;> ring
        · have hnw : ¬ sample_in_window now w s := fun h => hage h.2
          rw [if_neg hemp, if_neg hage, if_neg hnw]
          exact ih a c

/-- C2 (amended): `pwm_monitor_get_average` is `none` exactly when no sample
lies in the window, and otherwise returns the *truncated* integer mean of
exactly the in-window samples — so samples outside the window never affect the
result, but the value is `sum / count` in C integer division, not the
round-to-nearest mean the spec states. -/
theorem pwm_monitor_get_average_spec (now : Timespec) (m : PWMMonitor) :
    pwm_monitor_get_average now m =
      (if in_window_samples now m = [] then none
       else some (Int.tdiv (in_window_samples now m).sum
          (in_window_samples now m).length)) := by
  have hfold := pwm_average_foldl_eq now (m.avg_window_ms * 1000000) m.samples 0 0
  unfold pwm_monitor_get_average in_window_samples
  simp only [hfold, zero_add]
  set L := (m.samples.filter
      (fun s => decide (sample_in_window now (m.avg_window_ms * 1000000) s))).map
      (fun s => s.duration_us) with hLdef
  by_cases hnil : L = []
  · simp [hnil]
  · have hlen : L.length ≠ 0 := fun h0 => hnil (List.length_eq_zero.mp h0)
    have hlen' : (L.length : Int) ≠ 0 := by exact_mod_cast hlen
    rw [if_neg hlen', if_neg hnil]

/-- The averaging contract as the specification words it: the round-to-nearest
mean of the in-window samples (`average()` returns `round(mean(v1..vN))`),
`none` when the window holds no sample. -/
def spec_rounded_average (now : Timespec) (m : PWMMonitor) : Option Int :=
  let vs := in_window_samples now m
  if vs = [] then none else some (round ((vs.sum : ℚ) / (vs.length : ℚ)))

/-- A monitor holding three in-window samples 1000, 1001, 1001 µs, all
captured at monotonic time 10 s. -/
def pwm_avg_cx_monitor : PWMMonitor :=
  { pwm_monitor_fresh 17 with
    samples := ⟨1000, ⟨10, 0⟩⟩ :: ⟨1001, ⟨10, 0⟩⟩ :: ⟨1001, ⟨10, 0⟩⟩ ::
      List.replicate 125 ⟨0, ⟨0, 0⟩⟩,
    sample_head := 3 }

/-- C2 counterexample: with in-window samples 1000, 1001, 1001 the mean is
3002/3 ≈ 1000.67, whose rounding is 1001, but the code returns the truncated
quotient 1000. -/
theorem pwm_average_truncates_not_rounds :
    pwm_monitor_get_average ⟨10, 0⟩ pwm_avg_cx_monitor = some 1000 ∧
    spec_rounded_average ⟨10, 0⟩ pwm_avg_cx_monitor = some 1001 ∧
    pwm_monitor_get_average ⟨10, 0⟩ pwm_avg_cx_monitor ≠
      spec_rounded_average ⟨10, 0⟩ pwm_avg_cx_monitor := by
  have h1 : pwm_monitor_get_average ⟨10, 0⟩ pwm_avg_cx_monitor = some 1000 := by decide
  have hwin : in_window_samples ⟨10, 0⟩ pwm_avg_cx_monitor = [1000, 1001, 1001] := by decide
  have h2 : spec_rounded_average ⟨10, 0⟩ pwm_avg_cx_monitor = some 1001 := by
    unfold spec_rounded_average
    rw [hwin]
    norm_num [round_eq, List.sum_cons, List.length_cons]
    intro h
    exact absurd h (by decide)
  exact ⟨h1, h2, by rw [h1, h2]; decide⟩

/-- C7: `pwm_monitor_get_reading` returns the most recent unread reading
exactly when `has_new_reading` is set, clears the flag (and changes nothing
else, so a monitor with no unread reading is returned unchanged), and a second
read immediately after always returns nothing. -/
theorem pwm_monitor_get_reading_spec (m : PWMMonitor) :
    (pwm_monitor_get_reading m).1 =
      (if m.has_new_reading then some m.current_reading else none) ∧
    (pwm_monitor_get_reading m).2 =
      (if m.has_new_reading then { m with has_new_reading := false } else m) ∧
    (pwm_monitor_get_reading (pwm_monitor_get_reading m).2).1 = none := by
  by_cases h : m.has_new_reading = true
  · simp [pwm_monitor_get_reading, h]
  · simp only [Bool.not_eq_true] at h
    simp [pwm_monitor_get_reading, h]

/-! ### Monitor creation and the shared registry (gpio.c globals) -/

/-- `is_audio_hat_pin` from gpio.c: the WM8960 audio-HAT reserved pins. -/
def is_audio_hat_pin (pin : Int) : Bool :=
  pin == 2 || pin == 3 || pin == 18 || pin == 19 || pin == 20 || pin == 21

/-- The environment `pwm_monitor_create_with_name` runs in: whether
`gpio_init` has succeeded, and for each pin whether
`gpiod_line_request_new` for edge events succeeds (the kernel may refuse a
line that some driver holds).  Allocation failure is not modelled. -/
structure GpioEnv where
  initialized : Bool
  line_request_ok : Int → Bool

/-- `pwm_monitor_create_with_name` from gpio.c: fails (returns `none`) when
GPIO is uninitialized, when the pin is outside 0..27, or when the edge-event
line request fails; otherwise returns the freshly initialised monitor.  Note:
unlike `gpio_set_mode`/`gpio_write`/`gpio_read`, this function performs no
`is_audio_hat_pin` check. -/
def pwm_monitor_create_with_name (env : GpioEnv) (pin : Int) : Option PWMMonitor :=
  if ¬ env.initialized then none
  else if pin < 0 ∨ pin > 27 then none
  else if env.line_request_ok pin then some (pwm_monitor_fresh pin)
  else none

/-- C5 (code defect): `pwm_monitor_create_with_name` never consults
`is_audio_hat_pin`; on a reserved pin (18, the WM8960 I2S bit clock) whose
kernel line request succeeds it returns a usable monitor instead of failing,
although every other GPIO entry point rejects reserved pins and the
repository's documentation promises automatic protection for any attempt to
configure them. -/
theorem pwm_monitor_create_ignores_reserved_pins :
    is_audio_hat_pin 18 = true ∧
    pwm_monitor_create_with_name ⟨true, fun _ => true⟩ 18 =
      some (pwm_monitor_fresh 18) := by
  exact ⟨rfl, rfl⟩

/-- `MAX_PWM_MONITORS` from gpio.c. -/
def MAX_PWM_MONITORS : Nat := 8

/-- The gpio.c globals that carry monitor registration: the fixed-size
`active_monitors` slot array, `active_monitor_count`, and whether the shared
polling thread is running. -/
structure PWMRegistry where
  active_monitors : List (Option PWMMonitor)
  active_monitor_count : Int
  pwm_thread_running : Bool
  deriving Repr, DecidableEq

/-- The registry before any monitor is started: all 8 slots empty. -/
def pwm_registry_init : PWMRegistry :=
  ⟨List.replicate MAX_PWM_MONITORS none, 0, false⟩

/-- Outcome of `pwm_monitor_start`.  The C function returns 0 for `ok` and -1
for the two failure paths, which are distinct code paths distinguished by
their log messages (capacity reached / thread creation failed). -/
inductive StartResult where
  | ok
  | err_capacity
  | err_thread_create
  deriving Repr, DecidableEq

/-- The slot scan of `pwm_monitor_start`: the first index holding no
monitor. -/
def pwm_find_free_slot (slots : List (Option PWMMonitor)) : Option Nat :=
  slots.findIdx? (fun s => s.isNone)

/-- `pwm_monitor_start` from gpio.c.  An already-active monitor returns 0 at
once.  Otherwise the first free slot is taken, the count bumped and the
monitor marked active; if the shared polling thread is not running it is
started (`thrd_create_ok` says whether `thrd_create` succeeds), and a failed
thread creation rolls every registration effect back.  With no free slot the
call fails without touching anything. -/
def pwm_monitor_start (g : PWMRegistry) (m : PWMMonitor) (thrd_create_ok : Bool) :
    StartResult × PWMRegistry × PWMMonitor :=
  if m.active then (.ok, g, m)
  else
    match pwm_find_free_slot g.active_monitors with
    | none => (.err_capacity, g, m)
    | some slot =>
        if g.pwm_thread_running then
          (.ok,
            { g with
              active_monitors := g.active_monitors.set slot (some { m with active := true }),
              active_monitor_count := g.active_monitor_count + 1 },
            { m with active := true })
        else if thrd_create_ok then
          (.ok,
            { g with
              active_monitors := g.active_monitors.set slot (some { m with active := true }),
              active_monitor_count := g.active_monitor_count + 1,
              pwm_thread_running := true },
            { m with active := true })
        else
          (.err_thread_create,
            { g with
              active_monitors :=
                (g.active_monitors.set slot (some { m with active := true })).set slot none,
              active_monitor_count := g.active_monitor_count + 1 - 1,
              pwm_thread_running := false },
            m)

theorem list_set_none_eq_self {α : Type} (l : List (Option α)) (i : Nat)
    (h : l[i]? = some none) : l.set i none = l := by
  apply List.ext_getElem?
  intro j
  rw [List.getElem?_set]
  split
  · next hij =>
      subst hij
      rw [if_pos (by
        rcases List.getElem?_eq_some.mp h with ⟨hb, _⟩
        exact hb)]
      exact h.symm
  · rfl

theorem pwm_find_free_slot_none_iff (slots : List (Option PWMMonitor)) :
    pwm_find_free_slot slots = none ↔ ∀ s ∈ slots, s ≠ none := by
  unfold pwm_find_free_slot
  rw [List.findIdx?_eq_none_iff]
  constructor
  · intro h s hs heq
    have := h s hs
    rw [heq] at this
    simp at this
  · intro h s hs
    cases s with
    | none => exact absurd rfl (h none hs)
    | some v => rfl

theorem pwm_find_free_slot_some (slots : List (Option PWMMonitor)) (i : Nat)
    (h : pwm_find_free_slot slots = some i) :
    i < slots.length ∧ slots[i]? = some none := by
  unfold pwm_find_free_slot at h
  rw [List.findIdx?_eq_some_iff_findIdx_eq] at h
  obtain ⟨hlt, hidx⟩ := h
  refine ⟨hlt, ?_⟩
  have hp := @List.findIdx_getElem _ (fun s => s.isNone) slots (hidx ▸ hlt)
  simp only [hidx] at hp
  rw [List.getElem?_eq_getElem hlt, Option.isNone_iff_eq_none.mp hp]

/-- C6: starting a not-yet-registered monitor fails with the capacity error
exactly when every slot of the 8-slot registry is occupied; any failed start
returns the registry, the count, the polling-thread flag and the monitor
exactly as they were; and a successful start marks the monitor active,
registers it in a slot, and leaves the shared polling thread running. -/
theorem pwm_monitor_start_capacity (g : PWMRegistry) (m : PWMMonitor) (ok : Bool)
    (hm : m.active = false) :
    ((pwm_monitor_start g m ok).1 = .err_capacity ↔ ∀ s ∈ g.active_monitors, s ≠ none) ∧
    ((pwm_monitor_start g m ok).1 ≠ .ok →
      (pwm_monitor_start g m ok).2.1 = g ∧ (pwm_monitor_start g m ok).2.2 = m) ∧
    ((pwm_monitor_start g m ok).1 = .ok →
      (pwm_monitor_start g m ok).2.2.active = true ∧
      some (pwm_monitor_start g m ok).2.2 ∈ (pwm_monitor_start g m ok).2.1.active_monitors ∧
      (pwm_monitor_start g m ok).2.1.pwm_thread_running = true) := by
  unfold pwm_monitor_start
  rw [if_neg (by simp [hm])]
  cases hslot : pwm_find_free_slot g.active_monitors with
  | none =>
      have hall := (pwm_find_free_slot_none_iff g.active_monitors).mp hslot
      refine ⟨⟨fun _ => hall, fun _ => rfl⟩, fun _ => ⟨rfl, rfl⟩, fun hok => ?_⟩
      exact absurd hok (by simp)
  | some slot =>
      obtain ⟨hlt, hval⟩ := pwm_find_free_slot_some g.active_monitors slot hslot
      have hnotall : ¬ ∀ s ∈ g.active_monitors, s ≠ none := by
        intro hall
        exact hall none (List.getElem?_mem hval) rfl
      have hmem : ∀ (x : Option PWMMonitor),
          x ∈ g.active_monitors.set slot x := fun x =>
        List.mem_set g.active_monitors slot hlt x
      dsimp only
      cases hrun : g.pwm_thread_running with
      | true =>
          rw [if_pos rfl]
          exact ⟨⟨fun h => StartResult.noConfusion h, fun h => absurd h hnotall⟩,
            fun h => absurd rfl h, fun _ => ⟨rfl, hmem _, rfl⟩⟩
      | false =>
          rw [if_neg (by simp)]
          cases ok with
          | true =>
              rw [if_pos rfl]
              exact ⟨⟨fun h => StartResult.noConfusion h, fun h => absurd h hnotall⟩,
                fun h => absurd rfl h, fun _ => ⟨rfl, hmem _, rfl⟩⟩
          | false =>
              rw [if_neg (by simp)]
              have hroll : ((g.active_monitors.set slot
                  (some { m with active := true })).set slot none) =
                  g.active_monitors := by
                rw [List.set_set]
                exact list_set_none_eq_self _ _ hval
              refine ⟨⟨fun h => StartResult.noConfusion h, fun h => absurd h hnotall⟩,
                fun _ => ⟨?_, rfl⟩, fun hok => StartResult.noConfusion hok⟩
              cases g with
              | mk a c t =>
                  dsimp only at hroll hrun ⊢
                  rw [hroll, hrun]
                  simp

/-- C6 witness: a concrete inactive monitor started in the empty registry. -/
theorem pwm_monitor_start_capacity_witness :
    (((pwm_monitor_start pwm_registry_init (pwm_monitor_fresh 4) true).1 = .err_capacity ↔
        ∀ s ∈ pwm_registry_init.active_monitors, s ≠ none) ∧
      ((pwm_monitor_start pwm_registry_init (pwm_monitor_fresh 4) true).1 ≠ .ok →
        (pwm_monitor_start pwm_registry_init (pwm_monitor_fresh 4) true).2.1 =
          pwm_registry_init ∧
        (pwm_monitor_start pwm_registry_init (pwm_monitor_fresh 4) true).2.2 =
          pwm_monitor_fresh 4) ∧
      ((pwm_monitor_start pwm_registry_init (pwm_monitor_fresh 4) true).1 = .ok →
        (pwm_monitor_start pwm_registry_init (pwm_monitor_fresh 4) true).2.2.active = true ∧
        some (pwm_monitor_start pwm_registry_init (pwm_monitor_fresh 4) true).2.2 ∈
          (pwm_monitor_start pwm_registry_init (pwm_monitor_fresh 4) true).2.1.active_monitors ∧
        (pwm_monitor_start pwm_registry_init
          (pwm_monitor_fresh 4) true).2.1.pwm_thread_running = true)) :=
  pwm_monitor_start_capacity pwm_registry_init (pwm_monitor_fresh 4) true rfl

/-- C10: starting an already-active monitor succeeds immediately and changes
neither the registry (slots, count, polling-thread flag) nor the monitor. -/
theorem pwm_monitor_start_idempotent (g : PWMRegistry) (m : PWMMonitor) (ok : Bool)
    (hm : m.active = true) :
    pwm_monitor_start g m ok = (.ok, g, m) := by
  simp [pwm_monitor_start, hm]

/-- C10 witness: a concrete active monitor re-started in the empty registry. -/
theorem pwm_monitor_start_idempotent_witness :
    pwm_monitor_start pwm_registry_init { pwm_monitor_fresh 4 with active := true } true =
      (.ok, pwm_registry_init, { pwm_monitor_fresh 4 with active := true }) :=
  pwm_monitor_start_idempotent pwm_registry_init
    { pwm_monitor_fresh 4 with active := true } true rfl

/-! ### Smoke generator (smoke_generator.c) -/

/-- Levels the GPIO output pins were last written to. -/
def GpioLevels : Type := Int → Bool

/-- The level-setting effect of a successful `gpio_write(pin, value)`: the
named pin takes the value, every other pin keeps its level.  (The C function's
failure branches — uninitialized GPIO, reserved pin, unconfigured pin — write
nothing at all, so modelling the successful path is the strongest case for a
frame property.) -/
def gpio_write (levels : GpioLevels) (pin : Int) (value : Bool) : GpioLevels :=
  fun p => if p = pin then value else levels p

/-- `struct SmokeGenerator` from smoke_generator.c (the mutex guards the two
flags and is not part of the state). -/
structure SmokeGenerator where
  heater_pin : Int
  fan_pin : Int
  heater_on : Bool
  fan_on : Bool
  deriving Repr, DecidableEq

/-- `smoke_generator_heater_on`: sets the flag, drives the heater pin high. -/
def smoke_generator_heater_on (s : SmokeGenerator) (levels : GpioLevels) :
    SmokeGenerator × GpioLevels :=
  ({ s with heater_on := true }, gpio_write levels s.heater_pin true)

/-- `smoke_generator_heater_off`: clears the flag, drives the heater pin low. -/
def smoke_generator_heater_off (s : SmokeGenerator) (levels : GpioLevels) :
    SmokeGenerator × GpioLevels :=
  ({ s with heater_on := false }, gpio_write levels s.heater_pin false)

/-- `smoke_generator_fan_on`: sets the flag, drives the fan pin high. -/
def smoke_generator_fan_on (s : SmokeGenerator) (levels : GpioLevels) :
    SmokeGenerator × GpioLevels :=
  ({ s with fan_on := true }, gpio_write levels s.fan_pin true)

/-- `smoke_generator_fan_off`: clears the flag, drives the fan pin low. -/
def smoke_generator_fan_off (s : SmokeGenerator) (levels : GpioLevels) :
    SmokeGenerator × GpioLevels :=
  ({ s with fan_on := false }, gpio_write levels s.fan_pin false)

/-- C8: heater and fan are independent degrees of freedom.  Each heater
operation changes only the heater flag (and the heater pin's level), leaving
the fan flag and — for distinct pins, as wired — the fan pin's level
untouched, and symmetrically for the fan operations. -/
theorem smoke_heater_fan_independent (s : SmokeGenerator) (levels : GpioLevels)
    (hne : s.heater_pin ≠ s.fan_pin) :
    ((smoke_generator_heater_on s levels).1.fan_on = s.fan_on ∧
      (smoke_generator_heater_on s levels).1.heater_on = true ∧
      (smoke_generator_heater_on s levels).2 s.fan_pin = levels s.fan_pin) ∧
    ((smoke_generator_heater_off s levels).1.fan_on = s.fan_on ∧
      (smoke_generator_heater_off s levels).1.heater_on = false ∧
      (smoke_generator_heater_off s levels).2 s.fan_pin = levels s.fan_pin) ∧
    ((smoke_generator_fan_on s levels).1.heater_on = s.heater_on ∧
      (smoke_generator_fan_on s levels).1.fan_on = true ∧
      (smoke_generator_fan_on s levels).2 s.heater_pin = levels s.heater_pin) ∧
    ((smoke_generator_fan_off s levels).1.heater_on = s.heater_on ∧
      (smoke_generator_fan_off s levels).1.fan_on = false ∧
      (smoke_generator_fan_off s levels).2 s.heater_pin = levels s.heater_pin) := by
  have hne' : s.fan_pin ≠ s.heater_pin := Ne.symm hne
  refine ⟨⟨rfl, rfl, ?_⟩, ⟨rfl, rfl, ?_⟩, ⟨rfl, rfl, ?_⟩, ⟨rfl, rfl, ?_⟩⟩ <;>
    simp [smoke_generator_heater_on, smoke_generator_heater_off,
      smoke_generator_fan_on, smoke_generator_fan_off, gpio_write, hne, hne']

/-- C8 witness: heater on pin 23, fan on pin 24, all pins initially low. -/
theorem smoke_heater_fan_independent_witness :
    (((smoke_generator_heater_on ⟨23, 24, false, false⟩ (fun _ => false)).1.fan_on = false ∧
      (smoke_generator_heater_on ⟨23, 24, false, false⟩ (fun _ => false)).1.heater_on = true ∧
      (smoke_generator_heater_on ⟨23, 24, false, false⟩ (fun _ => false)).2 24 = false) ∧
    ((smoke_generator_heater_off ⟨23, 24, false, false⟩ (fun _ => false)).1.fan_on = false ∧
      (smoke_generator_heater_off ⟨23, 24, false, false⟩ (fun _ => false)).1.heater_on = false ∧
      (smoke_generator_heater_off ⟨23, 24, false, false⟩ (fun _ => false)).2 24 = false) ∧
    ((smoke_generator_fan_on ⟨23, 24, false, false⟩ (fun _ => false)).1.heater_on = false ∧
      (smoke_generator_fan_on ⟨23, 24, false, false⟩ (fun _ => false)).1.fan_on = true ∧
      (smoke_generator_fan_on ⟨23, 24, false, false⟩ (fun _ => false)).2 23 = false) ∧
    ((smoke_generator_fan_off ⟨23, 24, false, false⟩ (fun _ => false)).1.heater_on = false ∧
      (smoke_generator_fan_off ⟨23, 24, false, false⟩ (fun _ => false)).1.fan_on = false ∧
      (smoke_generator_fan_off ⟨23, 24, false, false⟩ (fun _ => false)).2 23 = false)) :=
  smoke_heater_fan_independent ⟨23, 24, false, false⟩ (fun _ => false) (by decide)

/-! ### The 128-slot ring buffer overwrites its oldest entries (C9) -/

/-- Push a list of accepted samples `(capture timestamp, duration)` through
the ring buffer, in acceptance order — the sample-append effect of a run of
in-band pulses through `process_pwm_event`. -/
def pwm_run_samples (m : PWMMonitor) (l : List (Timespec × Int)) : PWMMonitor :=
  l.foldl (fun m p => pwm_push_sample p.1 p.2 m) m

theorem pwm_run_samples_append (m : PWMMonitor) (l1 l2 : List (Timespec × Int)) :
    pwm_run_samples m (l1 ++ l2) = pwm_run_samples (pwm_run_samples m l1) l2 := by
  unfold pwm_run_samples
  exact List.foldl_append _ _ _ _

theorem pwm_run_samples_avg_window (m : PWMMonitor) (l : List (Timespec × Int)) :
    (pwm_run_samples m l).avg_window_ms = m.avg_window_ms := by
  induction l generalizing m with
  | nil => rfl
  | cons p ps ih => exact (ih _).trans rfl

theorem pwm_run_samples_length (m : PWMMonitor) (l : List (Timespec × Int)) :
    (pwm_run_samples m l).samples.length = m.samples.length := by
  induction l generalizing m with
  | nil => rfl
  | cons p ps ih =>
      refine (ih _).trans ?_
      simp [pwm_push_sample]

theorem pwm_run_samples_head (m : PWMMonitor) (l : List (Timespec × Int))
    (hh : m.sample_head < PWM_AVG_MAX_SAMPLES) :
    (pwm_run_samples m l).sample_head =
      (m.sample_head + l.length) % PWM_AVG_MAX_SAMPLES := by
  induction l generalizing m with
  | nil => exact (Nat.mod_eq_of_lt hh).symm
  | cons p ps ih =>
      have hh' : (m.sample_head + 1) % PWM_AVG_MAX_SAMPLES < PWM_AVG_MAX_SAMPLES :=
        Nat.mod_lt _ (by decide)
      have := ih (pwm_push_sample p.1 p.2 m) hh'
      rw [show pwm_run_samples m (p :: ps) = pwm_run_samples (pwm_push_sample p.1 p.2 m) ps
        from rfl, this]
      show ((m.sample_head + 1) % PWM_AVG_MAX_SAMPLES + ps.length) % PWM_AVG_MAX_SAMPLES = _
      rw [Nat.mod_add_mod,
        show m.sample_head + 1 + ps.length = m.sample_head + (p :: ps).length by
          simp only [List.length_cons]; omega]

/-- The last value pushed into slot `j` when the pushes start at head `h`
(`none` when no push of the run lands in slot `j`). -/
def ring_slot_val (h : Nat) (l : List (Timespec × Int)) (j : Nat) : Option PWMSample :=
  match l with
  | [] => none
  | x :: xs =>
      match ring_slot_val ((h + 1) % PWM_AVG_MAX_SAMPLES) xs j with
      | some y => some y
      | none => if h = j then some ⟨x.2, x.1⟩ else none

theorem ring_slot_char (l : List (Timespec × Int)) :
    ∀ (m : PWMMonitor) (j : Nat), m.sample_head < PWM_AVG_MAX_SAMPLES →
    m.samples.length = PWM_AVG_MAX_SAMPLES →
    (pwm_run_samples m l).samples[j]? =
      (match ring_slot_val m.sample_head l j with
       | some y => some y
       | none => m.samples[j]?) := by
  induction l with
  | nil => intro m j _ _; rfl
  | cons x xs ih =>
      intro m j hh hlen
      have hh' : (m.sample_head + 1) % PWM_AVG_MAX_SAMPLES < PWM_AVG_MAX_SAMPLES :=
        Nat.mod_lt _ (by decide)
      have hlen' : (pwm_push_sample x.1 x.2 m).samples.length = PWM_AVG_MAX_SAMPLES := by
        simpa [pwm_push_sample] using hlen
      have hstep := ih (pwm_push_sample x.1 x.2 m) j hh' hlen'
      rw [show pwm_run_samples m (x :: xs) = pwm_run_samples (pwm_push_sample x.1 x.2 m) xs
        from rfl, hstep]
      show (match ring_slot_val ((m.sample_head + 1) % PWM_AVG_MAX_SAMPLES) xs j with
        | some y => some y
        | none => (m.samples.set m.sample_head ⟨x.2, x.1⟩)[j]?) = _
      cases hin : ring_slot_val ((m.sample_head + 1) % PWM_AVG_MAX_SAMPLES) xs j with
      | some y =>
          show some y = _
          rw [show ring_slot_val m.sample_head (x :: xs) j =
            (match ring_slot_val ((m.sample_head + 1) % PWM_AVG_MAX_SAMPLES) xs j with
             | some y => some y
             | none => if m.sample_head = j then some ⟨x.2, x.1⟩ else none) from rfl, hin]
      | none =>
          show (m.samples.set m.sample_head ⟨x.2, x.1⟩)[j]? = _
          rw [show ring_slot_val m.sample_head (x :: xs) j =
            (match ring_slot_val ((m.sample_head + 1) % PWM_AVG_MAX_SAMPLES) xs j with
             | some y => some y
             | none => if m.sample_head = j then some ⟨x.2, x.1⟩ else none) from rfl, hin]
          rw [List.getElem?_set]
          by_cases hj : m.sample_head = j
          · rw [if_pos hj, if_pos hj, if_pos (by rw [hlen]; exact hh)]
          · rw [if_neg hj, if_neg hj]

theorem ring_slot_val_isSome :
    ∀ (l : List (Timespec × Int)) (h j k : Nat), h < PWM_AVG_MAX_SAMPLES →
    k < l.length → (h + k) % PWM_AVG_MAX_SAMPLES = j →
    (ring_slot_val h l j).isSome = true := by
  intro l
  induction l with
  | nil => intro h j k _ hk _; exact absurd hk (by simp)
  | cons x xs ih =>
      intro h j k hh hk hjk
      show (match ring_slot_val ((h + 1) % PWM_AVG_MAX_SAMPLES) xs j with
        | some y => some y
        | none => if h = j then some ⟨x.2, x.1⟩ else none).isSome = true
      cases hin : ring_slot_val ((h + 1) % PWM_AVG_MAX_SAMPLES) xs j with
      | some y => rfl
      | none =>
          cases k with
          | zero =>
              have : h = j := by
                rw [Nat.add_zero] at hjk
                rw [← hjk]
                exact (Nat.mod_eq_of_lt hh).symm
              simp [this]
          | succ kk =>
              exfalso
              have hstep : ((h + 1) % PWM_AVG_MAX_SAMPLES + kk) % PWM_AVG_MAX_SAMPLES = j := by
                rw [Nat.mod_add_mod]
                rw [show h + 1 + kk = h + (kk + 1) by omega]
                exact hjk
              have hkk : kk < xs.length := by
                simp only [List.length_cons] at hk
                omega
              have := ih ((h + 1) % PWM_AVG_MAX_SAMPLES) j kk
                (Nat.mod_lt _ (by decide)) hkk hstep
              rw [hin] at this
              simp at this

theorem ring_cover_exists (h j : Nat) (hh : h < PWM_AVG_MAX_SAMPLES)
    (hj : j < PWM_AVG_MAX_SAMPLES) :
    ∃ k < PWM_AVG_MAX_SAMPLES, (h + k) % PWM_AVG_MAX_SAMPLES = j := by
  by_cases hle : h ≤ j
  · refine ⟨j - h, by omega, ?_⟩
    rw [show h + (j - h) = j by omega]
    exact Nat.mod_eq_of_lt hj
  · refine ⟨j + PWM_AVG_MAX_SAMPLES - h, by omega, ?_⟩
    rw [show h + (j + PWM_AVG_MAX_SAMPLES - h) = j + PWM_AVG_MAX_SAMPLES by omega,
      Nat.add_mod_right]
    exact Nat.mod_eq_of_lt hj

theorem pwm_run_samples_saturating (m1 m2 : PWMMonitor) (l : List (Timespec × Int))
    (hh : m1.sample_head = m2.sample_head) (h1 : m1.sample_head < PWM_AVG_MAX_SAMPLES)
    (hl1 : m1.samples.length = PWM_AVG_MAX_SAMPLES)
    (hl2 : m2.samples.length = PWM_AVG_MAX_SAMPLES)
    (hlen : PWM_AVG_MAX_SAMPLES ≤ l.length) :
    (pwm_run_samples m1 l).samples = (pwm_run_samples m2 l).samples := by
  apply List.ext_getElem?
  intro j
  by_cases hj : j < PWM_AVG_MAX_SAMPLES
  · rw [ring_slot_char l m1 j h1 hl1, ring_slot_char l m2 j (hh ▸ h1) hl2, ← hh]
    obtain ⟨k, hk, hjk⟩ := ring_cover_exists m1.sample_head j h1 hj
    have hsome := ring_slot_val_isSome l m1.sample_head j k h1
      (lt_of_lt_of_le hk hlen) hjk
    cases hv : ring_slot_val m1.sample_head l j with
    | none => rw [hv] at hsome; simp at hsome
    | some y => rfl
  · have hge : PWM_AVG_MAX_SAMPLES ≤ j := Nat.le_of_not_lt hj
    rw [List.getElem?_eq_none (by rw [pwm_run_samples_length, hl1]; exact hge),
      List.getElem?_eq_none (by rw [pwm_run_samples_length, hl2]; exact hge)]

theorem pwm_monitor_get_average_congr (now : Timespec) (m1 m2 : PWMMonitor)
    (hs : m1.samples = m2.samples) (hw : m1.avg_window_ms = m2.avg_window_ms) :
    pwm_monitor_get_average now m1 = pwm_monitor_get_average now m2 := by
  unfold pwm_monitor_get_average
  rw [hs, hw]

/-- C9: pushing `n ≥ 128` accepted samples through a fresh monitor leaves the
ring buffer (hence the windowed average) determined by the most recent 128
samples alone: the buffer equals the one obtained by pushing only the last
128 samples (at the head position the earlier pushes left), so every older
sample has been overwritten and cannot affect `pwm_monitor_get_average`, even
if its age is still within the averaging window. -/
theorem pwm_ring_buffer_overwrites_oldest (l : List (Timespec × Int))
    (hlen : PWM_AVG_MAX_SAMPLES ≤ l.length) (pin : Int) (now : Timespec) :
    (pwm_run_samples (pwm_monitor_fresh pin) l).samples =
      (pwm_run_samples
        { pwm_monitor_fresh pin with
          sample_head := (l.length - PWM_AVG_MAX_SAMPLES) % PWM_AVG_MAX_SAMPLES }
        (l.drop (l.length - PWM_AVG_MAX_SAMPLES))).samples ∧
    pwm_monitor_get_average now (pwm_run_samples (pwm_monitor_fresh pin) l) =
      pwm_monitor_get_average now
        (pwm_run_samples
          { pwm_monitor_fresh pin with
            sample_head := (l.length - PWM_AVG_MAX_SAMPLES) % PWM_AVG_MAX_SAMPLES }
          (l.drop (l.length - PWM_AVG_MAX_SAMPLES))) := by
  have hfreshlen : (pwm_monitor_fresh pin).samples.length = PWM_AVG_MAX_SAMPLES := by
    rw [show (pwm_monitor_fresh pin).samples =
      List.replicate PWM_AVG_MAX_SAMPLES ⟨0, ⟨0, 0⟩⟩ from rfl]
    exact List.length_replicate _ _
  have hsplit : pwm_run_samples (pwm_monitor_fresh pin) l =
      pwm_run_samples (pwm_run_samples (pwm_monitor_fresh pin)
        (l.take (l.length - PWM_AVG_MAX_SAMPLES))) (l.drop (l.length - PWM_AVG_MAX_SAMPLES)) := by
    rw [← pwm_run_samples_append]
    rw [List.take_append_drop]
  have hheadtake : (pwm_run_samples (pwm_monitor_fresh pin)
      (l.take (l.length - PWM_AVG_MAX_SAMPLES))).sample_head =
      (l.length - PWM_AVG_MAX_SAMPLES) % PWM_AVG_MAX_SAMPLES := by
    rw [pwm_run_samples_head _ _ (by
      rw [show (pwm_monitor_fresh pin).sample_head = 0 from rfl]; decide)]
    rw [show (pwm_monitor_fresh pin).sample_head = 0 from rfl, Nat.zero_add,
      List.length_take, Nat.min_eq_left (Nat.sub_le _ _)]
  have hsameq : (pwm_run_samples (pwm_monitor_fresh pin) l).samples =
      (pwm_run_samples
        { pwm_monitor_fresh pin with
          sample_head := (l.length - PWM_AVG_MAX_SAMPLES) % PWM_AVG_MAX_SAMPLES }
        (l.drop (l.length - PWM_AVG_MAX_SAMPLES))).samples := by
    rw [hsplit]
    apply pwm_run_samples_saturating
    · rw [hheadtake]
    · rw [hheadtake]; exact Nat.mod_lt _ (by decide)
    · rw [pwm_run_samples_length]; exact hfreshlen
    · exact hfreshlen
    · rw [List.length_drop]
      omega
  refine ⟨hsameq, pwm_monitor_get_average_congr now _ _ hsameq ?_⟩
  rw [pwm_run_samples_avg_window, pwm_run_samples_avg_window]

/-- C9 witness: 129 accepted samples of 1500 µs. -/
theorem pwm_ring_buffer_overwrites_oldest_witness :
    PWM_AVG_MAX_SAMPLES ≤ (List.replicate 129 ((⟨1, 0⟩ : Timespec), (1500 : Int))).length ∧
    ((pwm_run_samples (pwm_monitor_fresh 17)
        (List.replicate 129 ((⟨1, 0⟩ : Timespec), (1500 : Int)))).samples =
      (pwm_run_samples
        { pwm_monitor_fresh 17 with
          sample_head := ((List.replicate 129 ((⟨1, 0⟩ : Timespec), (1500 : Int))).length -
            PWM_AVG_MAX_SAMPLES) % PWM_AVG_MAX_SAMPLES }
        ((List.replicate 129 ((⟨1, 0⟩ : Timespec), (1500 : Int))).drop
          ((List.replicate 129 ((⟨1, 0⟩ : Timespec), (1500 : Int))).length -
            PWM_AVG_MAX_SAMPLES))).samples ∧
    pwm_monitor_get_average ⟨1, 1⟩ (pwm_run_samples (pwm_monitor_fresh 17)
        (List.replicate 129 ((⟨1, 0⟩ : Timespec), (1500 : Int)))) =
      pwm_monitor_get_average ⟨1, 1⟩
        (pwm_run_samples
          { pwm_monitor_fresh 17 with
            sample_head := ((List.replicate 129 ((⟨1, 0⟩ : Timespec), (1500 : Int))).length -
              PWM_AVG_MAX_SAMPLES) % PWM_AVG_MAX_SAMPLES }
          ((List.replicate 129 ((⟨1, 0⟩ : Timespec), (1500 : Int))).drop
            ((List.replicate 129 ((⟨1, 0⟩ : Timespec), (1500 : Int))).length -
              PWM_AVG_MAX_SAMPLES)))) :=
  ⟨by rw [List.length_replicate]; decide,
    pwm_ring_buffer_overwrites_oldest
      (List.replicate 129 ((⟨1, 0⟩ : Timespec), (1500 : Int)))
      (by rw [List.length_replicate]; decide) 17 ⟨1, 1⟩⟩

/-! ### Gun fire controller: rate-of-fire selection (C4) -/

/-- `RateOfFire` as the gun-fire controller consumes it (helifx_jetiex.c
builds these from the configuration): rounds per minute and the trigger-PWM
threshold.  The sound handle is an external resource. -/
structure RateOfFire where
  rounds_per_minute : Nat
  pwm_threshold_us : Int
  deriving Repr, DecidableEq

/-- Modelled from the spec: the gun-fire controller implementation
(`gun_fx.c`) is not among the staged sources.  §4.3: "pick the rate with the
largest `pwm_threshold_us` that is `≤` the current reading; if none
qualifies, the gun is not firing."  The scan keeps the best qualifying
`(index, threshold)` seen so far and replaces it whenever a strictly larger
qualifying threshold appears. -/
def gun_select_rate_go :
    List RateOfFire → Int → Nat → Option (Nat × Int) → Option (Nat × Int)
  | [], _, _, best => best
  | rof :: rest, r, idx, best =>
      gun_select_rate_go rest r (idx + 1)
        (if rof.pwm_threshold_us ≤ r then
          match best with
          | none => some (idx, rof.pwm_threshold_us)
          | some (j, t) =>
              if t < rof.pwm_threshold_us then some (idx, rof.pwm_threshold_us)
              else some (j, t)
        else best)

/-- Modelled from the spec: the index of the rate with the largest threshold
not exceeding the reading, `none` when no rate qualifies ("not firing"). -/
def gun_select_rate (rates : List RateOfFire) (r : Int) : Option Nat :=
  (gun_select_rate_go rates r 0 none).map Prod.fst

/-- The index of the last entry of `ts` that is `≤ r`. -/
def last_le_idx : List Int → Int → Option Nat
  | [], _ => none
  | t :: ts, r =>
      match last_le_idx ts r with
      | some k => some (k + 1)
      | none => if t ≤ r then some 0 else none

theorem gun_select_go_eq (rates : List RateOfFire) (r : Int) :
    ∀ (idx : Nat) (best : Option (Nat × Int)),
    List.Pairwise (fun a b => a.pwm_threshold_us < b.pwm_threshold_us) rates →
    (∀ j t, best = some (j, t) →
      t ≤ r ∧ ∀ rof ∈ rates, t < rof.pwm_threshold_us) →
    (gun_select_rate_go rates r idx best).map Prod.fst =
      (match last_le_idx (rates.map (fun a => a.pwm_threshold_us)) r with
       | some k => some (idx + k)
       | none => best.map Prod.fst) := by
  induction rates with
  | nil => intro idx best _ _; rfl
  | cons rof rest ih =>
      intro idx best hsorted hbest
      rw [List.pairwise_cons] at hsorted
      obtain ⟨hhead, htail⟩ := hsorted
      have hlaststep : last_le_idx ((rof :: rest).map (fun a => a.pwm_threshold_us)) r =
          (match last_le_idx (rest.map (fun a => a.pwm_threshold_us)) r with
           | some k => some (k + 1)
           | none => if rof.pwm_threshold_us ≤ r then some 0 else none) := rfl
      by_cases hq : rof.pwm_threshold_us ≤ r
      · have hstep : gun_select_rate_go (rof :: rest) r idx best =
            gun_select_rate_go rest r (idx + 1) (some (idx, rof.pwm_threshold_us)) := by
          cases best with
          | none =>
              simp only [gun_select_rate_go]
              rw [if_pos hq]
          | some p =>
              obtain ⟨j, t⟩ := p
              obtain ⟨hble, hblt⟩ := hbest j t rfl
              simp only [gun_select_rate_go]
              rw [if_pos hq]
              rw [if_pos (hblt rof (List.mem_cons_self rof rest))]
        rw [hstep, ih (idx + 1) (some (idx, rof.pwm_threshold_us)) htail (by
          intro j t h
          simp only [Option.some.injEq, Prod.mk.injEq] at h
          obtain ⟨h1, h2⟩ := h
          subst h1
          subst h2
          exact ⟨hq, hhead⟩), hlaststep]
        cases hlast : last_le_idx (rest.map (fun a => a.pwm_threshold_us)) r with
        | some k =>
            dsimp only
            exact congrArg some (by omega)
        | none =>
            rw [if_pos hq]
            rfl
      · have hstep : gun_select_rate_go (rof :: rest) r idx best =
            gun_select_rate_go rest r (idx + 1) best := by
          cases best with
          | none =>
              simp only [gun_select_rate_go]
              rw [if_neg hq]
          | some p =>
              simp only [gun_select_rate_go]
              rw [if_neg hq]
        rw [hstep, ih (idx + 1) best htail (by
          intro j t h
          obtain ⟨hble, hblt⟩ := hbest j t h
          exact ⟨hble, fun rof2 h2 => hblt rof2 (List.mem_cons_of_mem rof h2)⟩),
          hlaststep]
        cases hlast : last_le_idx (rest.map (fun a => a.pwm_threshold_us)) r with
        | some k =>
            dsimp only
            exact congrArg some (by omega)
        | none =>
            rw [if_neg hq]

theorem last_le_idx_none_iff (ts : List Int) (r : Int) :
    last_le_idx ts r = none ↔ ∀ t ∈ ts, r < t := by
  induction ts with
  | nil => simp [last_le_idx]
  | cons t ts ih =>
      show (match last_le_idx ts r with
        | some k => some (k + 1)
        | none => if t ≤ r then some 0 else none) = none ↔ _
      cases hlast : last_le_idx ts r with
      | some k =>
          simp only []
          constructor
          · intro h; exact absurd h (by simp)
          · intro h
            have := (ih.mpr fun u hu => h u (List.mem_cons_of_mem t hu))
            rw [hlast] at this
            exact absurd this (by simp)
      | none =>
          simp only []
          by_cases hq : t ≤ r
          · rw [if_pos hq]
            constructor
            · intro h; exact absurd h (by simp)
            · intro h
              exact absurd (h t (List.mem_cons_self t ts)) (not_lt.mpr hq)
          · rw [if_neg hq]
            constructor
            · intro _ u hu
              rcases List.mem_cons.mp hu with rfl | hmem
              · exact lt_of_not_ge hq
              · exact (ih.mp hlast) u hmem
            · intro _; rfl

theorem last_le_idx_some (ts : List Int) (r : Int) :
    ∀ i, last_le_idx ts r = some i →
    ∃ t, ts[i]? = some t ∧ t ≤ r ∧
      (i + 1 = ts.length ∨ ∃ u, ts[i + 1]? = some u ∧ r < u) := by
  induction ts with
  | nil => intro i h; exact absurd h (by simp [last_le_idx])
  | cons t ts ih =>
      intro i h
      rw [show last_le_idx (t :: ts) r =
        (match last_le_idx ts r with
         | some k => some (k + 1)
         | none => if t ≤ r then some 0 else none) from rfl] at h
      cases hlast : last_le_idx ts r with
      | some k =>
          rw [hlast] at h
          injection h with h
          subst h
          obtain ⟨u, hu, hule, hnext⟩ := ih k hlast
          refine ⟨u, by simpa using hu, hule, ?_⟩
          rcases hnext with hlen | ⟨v, hv, hrv⟩
          · left; simp [hlen]
          · right; exact ⟨v, by simpa using hv, hrv⟩
      | none =>
          rw [hlast] at h
          by_cases hq : t ≤ r
          · rw [if_pos hq] at h
            injection h with h
            subst h
            refine ⟨t, by simp, hq, ?_⟩
            cases ts with
            | nil => left; rfl
            | cons u us =>
                right
                refine ⟨u, by simp, ?_⟩
                exact (last_le_idx_none_iff (u :: us) r).mp hlast u
                  (List.mem_cons_self u us)
          · rw [if_neg hq] at h
            exact absurd h (by simp)

/-- C4 (spec-modelled): for a strictly ascending rates list, the selection
returns "not firing" exactly when the reading is below every threshold (in
particular whenever it is below the lowest threshold), and a selected index
`i` satisfies `tᵢ ≤ r` and (`i + 1 = n` or `r < t_{i+1}`) — the largest
threshold not exceeding the reading. -/
theorem gun_rate_selection (rates : List RateOfFire) (r : Int)
    (hsorted : List.Pairwise
      (fun a b => a.pwm_threshold_us < b.pwm_threshold_us) rates) :
    (gun_select_rate rates r = none ↔ ∀ rof ∈ rates, r < rof.pwm_threshold_us) ∧
    (∀ t0, (rates.map (fun a => a.pwm_threshold_us))[0]? = some t0 → r < t0 →
      gun_select_rate rates r = none) ∧
    (∀ i, gun_select_rate rates r = some i →
      ∃ t, (rates.map (fun a => a.pwm_threshold_us))[i]? = some t ∧ t ≤ r ∧
        (i + 1 = rates.length ∨
          ∃ u, (rates.map (fun a => a.pwm_threshold_us))[i + 1]? = some u ∧ r < u)) := by
  have hsel : gun_select_rate rates r =
      last_le_idx (rates.map (fun a => a.pwm_threshold_us)) r := by
    unfold gun_select_rate
    rw [gun_select_go_eq rates r 0 none hsorted (by intro j t h; exact absurd h (by simp))]
    cases hlast : last_le_idx (rates.map (fun a => a.pwm_threshold_us)) r with
    | some k => show some (0 + k) = some k; rw [Nat.zero_add]
    | none => rfl
  refine ⟨?_, ?_, ?_⟩
  · rw [hsel, last_le_idx_none_iff]
    constructor
    · intro h rof hmem
      exact h rof.pwm_threshold_us (List.mem_map_of_mem _ hmem)
    · intro h t hmem
      obtain ⟨rof, hrof, rfl⟩ := List.mem_map.mp hmem
      exact h rof hrof
  · intro t0 h0 hr
    rw [hsel, last_le_idx_none_iff]
    cases rates with
    | nil => intro t hmem; exact absurd hmem (by simp)
    | cons a rest =>
        have ht0 : a.pwm_threshold_us = t0 := by
          simpa using h0
        intro t hmem
        rcases List.mem_map.mp hmem with ⟨rof, hrof, rfl⟩
        rcases List.mem_cons.mp hrof with rfl | hmemr
        · rw [ht0]; exact hr
        · rw [List.pairwise_cons] at hsorted
          calc r < t0 := hr
            _ = a.pwm_threshold_us := ht0.symm
            _ < rof.pwm_threshold_us := hsorted.1 rof hmemr
  · intro i hi
    rw [hsel] at hi
    have := last_le_idx_some (rates.map (fun a => a.pwm_threshold_us)) r i hi
    simpa [List.length_map] using this

/-- C4 witness: the spec's concrete scenario — rates ("low", 200 rpm, 1400 µs)
and ("high", 550 rpm, 1700 µs), reading 1650 µs. -/
theorem gun_rate_selection_witness :
    ((gun_select_rate [⟨200, 1400⟩, ⟨550, 1700⟩] 1650 = none ↔
        ∀ rof ∈ [(⟨200, 1400⟩ : RateOfFire), ⟨550, 1700⟩], 1650 < rof.pwm_threshold_us) ∧
      (∀ t0, (([(⟨200, 1400⟩ : RateOfFire), ⟨550, 1700⟩]).map
          (fun a => a.pwm_threshold_us))[0]? = some t0 → 1650 < t0 →
        gun_select_rate [⟨200, 1400⟩, ⟨550, 1700⟩] 1650 = none) ∧
      (∀ i, gun_select_rate [⟨200, 1400⟩, ⟨550, 1700⟩] 1650 = some i →
        ∃ t, (([(⟨200, 1400⟩ : RateOfFire), ⟨550, 1700⟩]).map
            (fun a => a.pwm_threshold_us))[i]? = some t ∧ t ≤ 1650 ∧
          (i + 1 = ([(⟨200, 1400⟩ : RateOfFire), ⟨550, 1700⟩]).length ∨
            ∃ u, (([(⟨200, 1400⟩ : RateOfFire), ⟨550, 1700⟩]).map
              (fun a => a.pwm_threshold_us))[i + 1]? = some u ∧ 1650 < u))) ∧
    gun_select_rate [⟨200, 1400⟩, ⟨550, 1700⟩] 1650 = some 0 :=
  ⟨gun_rate_selection [⟨200, 1400⟩, ⟨550, 1700⟩] 1650 (by decide), by decide⟩

/-! ### Servo motion profiler (C3)

The servo implementation (`servo.c`) is not among the staged sources; only
`servo.h` and callers are.  The control algorithm below is modelled from the
specification §4.2, over `ℚ` (the C code uses `float`; the properties at
stake are algorithmic, not rounding properties). -/

/-- `ServoConfig` from servo.h (ranges and limits; `max_speed = 0` or
`max_accel = 0` disables the corresponding limit). -/
structure ServoConfig where
  input_min_us : ℚ
  input_max_us : ℚ
  output_min_us : ℚ
  output_max_us : ℚ
  max_speed_us_per_sec : ℚ
  max_accel_us_per_sec2 : ℚ
  update_rate_hz : Nat
  deriving Repr, DecidableEq

/-- The state the profiler's control loop evolves: current output and
velocity. -/
structure ServoState where
  output_us : ℚ
  velocity_us_per_sec : ℚ
  deriving Repr, DecidableEq

/-- The control-loop period `dt = 1 / update_rate_hz` (§4.2). -/
def servo_dt (cfg : ServoConfig) : ℚ :=
  1 / (cfg.update_rate_hz : ℚ)

/-- Move `cur` toward `tgt` by at most `d`, stopping at `tgt`. -/
def moveToward (cur tgt d : ℚ) : ℚ :=
  if cur < tgt then min tgt (cur + d)
  else if tgt < cur then max tgt (cur - d)
  else cur

/-- The desired direction `sign(error)` of §4.2. -/
def servo_dir (error : ℚ) : ℚ :=
  if 0 < error then 1 else if error < 0 then -1 else 0

/-- Modelled from the spec (§4.2): the velocity update of one control tick.
With `max_accel > 0`, compare the remaining `|error|` with the braking
distance `v² / (2·max_accel)`: inside it, decelerate toward zero; outside it,
accelerate toward `direction · max_speed`; either way the change is clamped
to `max_accel · dt`.  With the acceleration limit disabled the velocity jumps
straight to `direction · max_speed`. -/
def servo_tick_velocity (cfg : ServoConfig) (target : ℚ) (s : ServoState) : ℚ :=
  if 0 < cfg.max_accel_us_per_sec2 then
    if |target - s.output_us| <
        s.velocity_us_per_sec ^ 2 / (2 * cfg.max_accel_us_per_sec2) then
      moveToward s.velocity_us_per_sec 0 (cfg.max_accel_us_per_sec2 * servo_dt cfg)
    else
      moveToward s.velocity_us_per_sec
        (servo_dir (target - s.output_us) * cfg.max_speed_us_per_sec)
        (cfg.max_accel_us_per_sec2 * servo_dt cfg)
  else servo_dir (target - s.output_us) * cfg.max_speed_us_per_sec

/-- Modelled from the spec (§4.2): one control tick.  `max_speed = 0` is
"instant" mode (direct assignment).  Otherwise the velocity is updated, then
`output += velocity · dt`, clamped so it never overshoots the target when the
remaining error is smaller than the integration step — in that case the
output snaps to the target and the velocity is zeroed (the snap applies when
the step is directed toward the target, `0 ≤ error · v`). -/
def servo_tick (cfg : ServoConfig) (target : ℚ) (s : ServoState) : ServoState :=
  if cfg.max_speed_us_per_sec = 0 then ⟨target, 0⟩
  else if |target - s.output_us| ≤ |servo_tick_velocity cfg target s * servo_dt cfg| ∧
      0 ≤ (target - s.output_us) * servo_tick_velocity cfg target s then
    ⟨target, 0⟩
  else
    ⟨s.output_us + servo_tick_velocity cfg target s * servo_dt cfg,
      servo_tick_velocity cfg target s⟩

/-- A run of the control loop: one tick per entry of `targets` (the target a
`set_input` call has left in place for that tick). -/
def servo_run (cfg : ServoConfig) (s : ServoState) (targets : List ℚ) : ServoState :=
  targets.foldl (fun s t => servo_tick cfg t s) s

/-- Modelled from the spec (§4.2, `set_input`): linear mapping of the input
range onto the output range, the input clamped to its range first. -/
def servo_map_input (cfg : ServoConfig) (input_us : ℚ) : ℚ :=
  cfg.output_min_us +
    (max cfg.input_min_us (min cfg.input_max_us input_us) - cfg.input_min_us) *
      (cfg.output_max_us - cfg.output_min_us) /
      (cfg.input_max_us - cfg.input_min_us)

/-- Modelled from the spec (§4.2, `create`): "initial output equals the
mapped midpoint", zero velocity. -/
def servo_initial (cfg : ServoConfig) : ServoState :=
  ⟨servo_map_input cfg ((cfg.input_min_us + cfg.input_max_us) / 2), 0⟩

theorem servo_dt_nonneg (cfg : ServoConfig) : 0 ≤ servo_dt cfg := by
  unfold servo_dt
  positivity

theorem servo_dt_pos (cfg : ServoConfig) (hhz : 0 < cfg.update_rate_hz) :
    0 < servo_dt cfg := by
  unfold servo_dt
  have : (0 : ℚ) < (cfg.update_rate_hz : ℚ) := by exact_mod_cast hhz
  positivity

theorem moveToward_abs_sub_le (cur tgt d : ℚ) (hd : 0 ≤ d) :
    |moveToward cur tgt d - cur| ≤ d := by
  unfold moveToward
  by_cases h1 : cur < tgt
  · rw [if_pos h1]
    have hlo : cur ≤ min tgt (cur + d) := le_min h1.le (by linarith)
    have hhi : min tgt (cur + d) ≤ cur + d := min_le_right _ _
    rw [abs_le]
    constructor <;> linarith
  · by_cases h2 : tgt < cur
    · rw [if_neg h1, if_pos h2]
      have hlo : cur - d ≤ max tgt (cur - d) := le_max_right _ _
      have hhi : max tgt (cur - d) ≤ cur := max_le h2.le (by linarith)
      rw [abs_le]
      constructor <;> linarith
    · rw [if_neg h1, if_neg h2]
      simpa using hd

theorem moveToward_abs_le (cur tgt d B : ℚ) (hd : 0 ≤ d)
    (hcur : |cur| ≤ B) (htgt : |tgt| ≤ B) :
    |moveToward cur tgt d| ≤ B := by
  rw [abs_le] at hcur htgt ⊢
  unfold moveToward
  by_cases h1 : cur < tgt
  · rw [if_pos h1]
    constructor
    · exact le_min (by linarith) (by linarith)
    · exact le_trans (min_le_left _ _) (by linarith)
  · by_cases h2 : tgt < cur
    · rw [if_neg h1, if_pos h2]
      constructor
      · exact le_trans (by linarith) (le_max_left _ _)
      · exact max_le (by linarith) (by linarith)
    · rw [if_neg h1, if_neg h2]
      exact ⟨hcur.1, hcur.2⟩

theorem servo_dir_abs_le_one (e : ℚ) : |servo_dir e| ≤ 1 := by
  unfold servo_dir
  split
  · norm_num
  · split <;> norm_num

theorem servo_tick_velocity_abs_le (cfg : ServoConfig) (t : ℚ) (s : ServoState)
    (hS : 0 ≤ cfg.max_speed_us_per_sec)
    (hv : |s.velocity_us_per_sec| ≤ cfg.max_speed_us_per_sec) :
    |servo_tick_velocity cfg t s| ≤ cfg.max_speed_us_per_sec := by
  unfold servo_tick_velocity
  have hdir : |servo_dir (t - s.output_us) * cfg.max_speed_us_per_sec| ≤
      cfg.max_speed_us_per_sec := by
    rw [abs_mul, abs_of_nonneg hS]
    calc |servo_dir (t - s.output_us)| * cfg.max_speed_us_per_sec
        ≤ 1 * cfg.max_speed_us_per_sec :=
          mul_le_mul_of_nonneg_right (servo_dir_abs_le_one _) hS
      _ = cfg.max_speed_us_per_sec := one_mul _
  by_cases ha : 0 < cfg.max_accel_us_per_sec2
  · rw [if_pos ha]
    have hd : 0 ≤ cfg.max_accel_us_per_sec2 * servo_dt cfg :=
      mul_nonneg ha.le (servo_dt_nonneg cfg)
    by_cases hb : |t - s.output_us| <
        s.velocity_us_per_sec ^ 2 / (2 * cfg.max_accel_us_per_sec2)
    · rw [if_pos hb]
      exact moveToward_abs_le _ _ _ _ hd hv (by simpa using hS)
    · rw [if_neg hb]
      exact moveToward_abs_le _ _ _ _ hd hv hdir
  · rw [if_neg ha]
    exact hdir

theorem servo_tick_speed (cfg : ServoConfig) (t : ℚ) (s : ServoState)
    (hS : 0 < cfg.max_speed_us_per_sec)
    (hv : |s.velocity_us_per_sec| ≤ cfg.max_speed_us_per_sec) :
    |(servo_tick cfg t s).velocity_us_per_sec| ≤ cfg.max_speed_us_per_sec := by
  unfold servo_tick
  rw [if_neg (ne_of_gt hS)]
  split
  · show |(0 : ℚ)| ≤ cfg.max_speed_us_per_sec
    simpa using hS.le
  · exact servo_tick_velocity_abs_le cfg t s hS.le hv

theorem servo_run_speed (cfg : ServoConfig) (targets : List ℚ) :
    ∀ s : ServoState, 0 < cfg.max_speed_us_per_sec →
    |s.velocity_us_per_sec| ≤ cfg.max_speed_us_per_sec →
    |(servo_run cfg s targets).velocity_us_per_sec| ≤ cfg.max_speed_us_per_sec := by
  induction targets with
  | nil => intro s _ hv; exact hv
  | cons t ts ih =>
      intro s hS hv
      exact ih (servo_tick cfg t s) hS (servo_tick_speed cfg t s hS hv)

theorem servo_tick_accel_or_snap (cfg : ServoConfig) (t : ℚ) (s : ServoState)
    (hS : 0 < cfg.max_speed_us_per_sec) (ha : 0 < cfg.max_accel_us_per_sec2) :
    |(servo_tick cfg t s).velocity_us_per_sec - s.velocity_us_per_sec| ≤
        cfg.max_accel_us_per_sec2 * servo_dt cfg ∨
      ((servo_tick cfg t s).output_us = t ∧
        (servo_tick cfg t s).velocity_us_per_sec = 0) := by
  unfold servo_tick
  rw [if_neg (ne_of_gt hS)]
  split
  · right
    exact ⟨rfl, rfl⟩
  · left
    show |servo_tick_velocity cfg t s - s.velocity_us_per_sec| ≤ _
    have hd : 0 ≤ cfg.max_accel_us_per_sec2 * servo_dt cfg :=
      mul_nonneg ha.le (servo_dt_nonneg cfg)
    unfold servo_tick_velocity
    rw [if_pos ha]
    split
    · exact moveToward_abs_sub_le _ _ _ hd
    · exact moveToward_abs_sub_le _ _ _ hd

theorem servo_tick_no_cross (cfg : ServoConfig) (t : ℚ) (s : ServoState)
    (_hhz : 0 < cfg.update_rate_hz) :
    (s.output_us ≤ t → (servo_tick cfg t s).output_us ≤ t) ∧
    (t ≤ s.output_us → t ≤ (servo_tick cfg t s).output_us) := by
  unfold servo_tick
  by_cases hS0 : cfg.max_speed_us_per_sec = 0
  · rw [if_pos hS0]
    exact ⟨fun _ => le_refl t, fun _ => le_refl t⟩
  · rw [if_neg hS0]
    by_cases hsnap : |t - s.output_us| ≤ |servo_tick_velocity cfg t s * servo_dt cfg| ∧
        0 ≤ (t - s.output_us) * servo_tick_velocity cfg t s
    · rw [if_pos hsnap]
      exact ⟨fun _ => le_refl t, fun _ => le_refl t⟩
    · rw [if_neg hsnap]
      constructor
      · intro hle
        show s.output_us + servo_tick_velocity cfg t s * servo_dt cfg ≤ t
        rcases le_or_lt (servo_tick_velocity cfg t s) 0 with hv0 | hv0
        · have hstep : servo_tick_velocity cfg t s * servo_dt cfg ≤ 0 :=
            mul_nonpos_iff.mpr (Or.inr ⟨hv0, servo_dt_nonneg cfg⟩)
          linarith
        · have he : 0 ≤ t - s.output_us := by linarith
          have hev : 0 ≤ (t - s.output_us) * servo_tick_velocity cfg t s :=
            mul_nonneg he hv0.le
          have hlt : |servo_tick_velocity cfg t s * servo_dt cfg| < |t - s.output_us| :=
            not_le.mp fun hcon => hsnap ⟨hcon, hev⟩
          have h1 : servo_tick_velocity cfg t s * servo_dt cfg ≤
              |servo_tick_velocity cfg t s * servo_dt cfg| := le_abs_self _
          have h2 : |t - s.output_us| = t - s.output_us := abs_of_nonneg he
          linarith
      · intro hle
        show t ≤ s.output_us + servo_tick_velocity cfg t s * servo_dt cfg
        rcases le_or_lt 0 (servo_tick_velocity cfg t s) with hv0 | hv0
        · have hstep : 0 ≤ servo_tick_velocity cfg t s * servo_dt cfg :=
            mul_nonneg hv0 (servo_dt_nonneg cfg)
          linarith
        · have he : t - s.output_us ≤ 0 := by linarith
          have hev : 0 ≤ (t - s.output_us) * servo_tick_velocity cfg t s := by
            have := mul_nonneg (neg_nonneg.mpr he) (neg_nonneg.mpr hv0.le)
            rw [neg_mul_neg] at this
            exact this
          have hlt : |servo_tick_velocity cfg t s * servo_dt cfg| < |t - s.output_us| :=
            not_le.mp fun hcon => hsnap ⟨hcon, hev⟩
          have h1 : -(servo_tick_velocity cfg t s * servo_dt cfg) ≤
              |servo_tick_velocity cfg t s * servo_dt cfg| := neg_le_abs _
          have h2 : |t - s.output_us| = -(t - s.output_us) := abs_of_nonpos he
          linarith

theorem servo_run_no_cross (cfg : ServoConfig) (T : ℚ)
    (hhz : 0 < cfg.update_rate_hz) :
    ∀ (n : Nat) (s : ServoState),
    (s.output_us ≤ T → (servo_run cfg s (List.replicate n T)).output_us ≤ T) ∧
    (T ≤ s.output_us → T ≤ (servo_run cfg s (List.replicate n T)).output_us) := by
  intro n
  induction n with
  | zero => intro s; exact ⟨id, id⟩
  | succ n ih =>
      intro s
      rw [List.replicate_succ]
      show (s.output_us ≤ T →
          (servo_run cfg (servo_tick cfg T s) (List.replicate n T)).output_us ≤ T) ∧ _
      constructor
      · intro hle
        exact (ih (servo_tick cfg T s)).1 ((servo_tick_no_cross cfg T s hhz).1 hle)
      · intro hle
        exact (ih (servo_tick cfg T s)).2 ((servo_tick_no_cross cfg T s hhz).2 hle)

/-- C3 (amended): for `max_speed > 0`, `max_accel > 0` and any target
sequence, every reachable state has `|velocity| ≤ max_speed`; on each tick
either `|Δvelocity| ≤ max_accel · dt` or the tick snapped the output to the
target and zeroed the velocity (the snap step may exceed the acceleration
bound — see the counterexample); and a stationary target is never crossed
(the output stays on its side of the target or lands exactly on it, so it
never overshoots and comes back). -/
theorem servo_motion_bounds (cfg : ServoConfig) (s : ServoState)
    (targets : List ℚ) (t T : ℚ) (n : Nat)
    (hS : 0 < cfg.max_speed_us_per_sec) (ha : 0 < cfg.max_accel_us_per_sec2)
    (hhz : 0 < cfg.update_rate_hz)
    (hv : |s.velocity_us_per_sec| ≤ cfg.max_speed_us_per_sec) :
    |(servo_run cfg s targets).velocity_us_per_sec| ≤ cfg.max_speed_us_per_sec ∧
    (|(servo_tick cfg t s).velocity_us_per_sec - s.velocity_us_per_sec| ≤
        cfg.max_accel_us_per_sec2 * servo_dt cfg ∨
      ((servo_tick cfg t s).output_us = t ∧
        (servo_tick cfg t s).velocity_us_per_sec = 0)) ∧
    (s.output_us ≤ T → (servo_run cfg s (List.replicate n T)).output_us ≤ T) ∧
    (T ≤ s.output_us → T ≤ (servo_run cfg s (List.replicate n T)).output_us) :=
  ⟨servo_run_speed cfg targets s hS hv,
    servo_tick_accel_or_snap cfg t s hS ha,
    (servo_run_no_cross cfg T hhz n s).1,
    (servo_run_no_cross cfg T hhz n s).2⟩

/-- The servo configuration of the spec's concrete scenario, with the input
range widened to match the output range (identity mapping): max speed
500 µs/s, max accel 2000 µs/s², 50 Hz. -/
def servo_cx_cfg : ServoConfig :=
  ⟨0, 1000000, 0, 1000000, 500, 2000, 50⟩

/-- First tick from the initial state toward `set_input 600000`: the
profiler accelerates to 40 µs/s. -/
def servo_cx_tick1 : ServoState :=
  servo_tick servo_cx_cfg (servo_map_input servo_cx_cfg 600000)
    (servo_initial servo_cx_cfg)

/-- Second tick toward the same far target: velocity reaches 80 µs/s. -/
def servo_cx_tick2 : ServoState :=
  servo_tick servo_cx_cfg (servo_map_input servo_cx_cfg 600000) servo_cx_tick1

/-- Third tick after `set_input` moves the target to 0.5 µs ahead of the
current output: the tick snaps to the target and zeroes the velocity. -/
def servo_cx_tick3 : ServoState :=
  servo_tick servo_cx_cfg (servo_map_input servo_cx_cfg (5000029 / 10))
    servo_cx_tick2

/-- C3 counterexample: on the reachable three-tick trace above, the third
tick takes the velocity from 80 µs/s to 0 — a change of 80 µs/s in one 20 ms
tick, above the configured `max_accel · dt = 40 µs/s` — so the claim
"|Δvelocity/Δt| ≤ max_accel between consecutive ticks for any target
sequence" fails at the snap-to-target step. -/
theorem servo_accel_bound_violated :
    servo_cx_tick2.velocity_us_per_sec = 80 ∧
    servo_cx_tick3.velocity_us_per_sec = 0 ∧
    ¬ (|servo_cx_tick3.velocity_us_per_sec - servo_cx_tick2.velocity_us_per_sec| ≤
      servo_cx_cfg.max_accel_us_per_sec2 * servo_dt servo_cx_cfg) := by
  have h0 : servo_initial servo_cx_cfg = ⟨500000, 0⟩ := by
    norm_num [servo_initial, servo_map_input, servo_cx_cfg, min_def, max_def]
  have hmap1 : servo_map_input servo_cx_cfg 600000 = 600000 := by
    norm_num [servo_map_input, servo_cx_cfg, min_def, max_def]
  have hmap3 : servo_map_input servo_cx_cfg (5000029 / 10) = 5000029 / 10 := by
    norm_num [servo_map_input, servo_cx_cfg, min_def, max_def]
  have h1 : servo_cx_tick1 = ⟨2500004 / 5, 40⟩ := by
    unfold servo_cx_tick1
    rw [h0, hmap1]
    norm_num [servo_tick, servo_tick_velocity, moveToward, servo_dir, servo_dt,
      servo_cx_cfg, min_def, max_def, abs_eq_max_neg]
  have h2 : servo_cx_tick2 = ⟨2500012 / 5, 80⟩ := by
    unfold servo_cx_tick2
    rw [h1, hmap1]
    norm_num [servo_tick, servo_tick_velocity, moveToward, servo_dir, servo_dt,
      servo_cx_cfg, min_def, max_def, abs_eq_max_neg]
  have h3 : servo_cx_tick3 = ⟨5000029 / 10, 0⟩ := by
    unfold servo_cx_tick3
    rw [h2, hmap3]
    norm_num [servo_tick, servo_tick_velocity, moveToward, servo_dir, servo_dt,
      servo_cx_cfg, min_def, max_def, abs_eq_max_neg]
  rw [h2, h3]
  norm_num [servo_dt, servo_cx_cfg, abs_eq_max_neg, max_def]

/-- C3 witness: the scenario configuration, started at output 500000 µs with
zero velocity. -/
theorem servo_motion_bounds_witness :
    (|(servo_run servo_cx_cfg ⟨500000, 0⟩
        [600000]).velocity_us_per_sec| ≤ servo_cx_cfg.max_speed_us_per_sec ∧
      (|(servo_tick servo_cx_cfg 600000
            (⟨500000, 0⟩ : ServoState)).velocity_us_per_sec -
          (⟨500000, 0⟩ : ServoState).velocity_us_per_sec| ≤
          servo_cx_cfg.max_accel_us_per_sec2 * servo_dt servo_cx_cfg ∨
        ((servo_tick servo_cx_cfg 600000 (⟨500000, 0⟩ : ServoState)).output_us =
            600000 ∧
          (servo_tick servo_cx_cfg 600000
            (⟨500000, 0⟩ : ServoState)).velocity_us_per_sec = 0)) ∧
      ((⟨500000, 0⟩ : ServoState).output_us ≤ 600000 →
        (servo_run servo_cx_cfg ⟨500000, 0⟩
          (List.replicate 3 600000)).output_us ≤ 600000) ∧
      (600000 ≤ (⟨500000, 0⟩ : ServoState).output_us →
        600000 ≤ (servo_run servo_cx_cfg ⟨500000, 0⟩
          (List.replicate 3 600000)).output_us)) :=
  servo_motion_bounds servo_cx_cfg ⟨500000, 0⟩
    [600000] 600000 600000 3 (by norm_num [servo_cx_cfg])
    (by norm_num [servo_cx_cfg]) (by norm_num [servo_cx_cfg])
    (by norm_num [servo_cx_cfg])

end HeliFX
